import Mathlib

/-
Verification of the Eón ESN core (src/phase2-core/libAeon/libAeon.c and
src/phase6-collective/src/quantization.c) in its default build
configuration: AEON_USE_FIXED_POINT = 1, AEON_RESERVOIR_SIZE = 32,
AEON_INPUT_SIZE = 1, AEON_OUTPUT_SIZE = 1, AEON_SPARSITY_FACTOR = 4,
AEON_SCALE = 256, AEON_SCALE_BITS = 8, AEON_VERSION = (1 << 8) | 0 = 256.

Machine integers are embedded as Nat / Int.  In fixed-point mode every
arithmetic step of the C code works on int32_t (aeon_state_t); products and
sums that can exceed the int32_t range are wrapped with `wrap32` (two's
complement wrap-around, the de-facto behaviour of signed overflow on the
targets named by the project).  The C arithmetic right shift `>> 8` on a
(possibly negative) int32 value is floor division by 256, embedded as
`Int.fdiv`; the C integer division `/ 3` truncates toward zero, embedded as
`Int.tdiv`.  C `float` values that only ever feed sign tests or exact
power-of-two scalings are embedded as rationals.
-/

set_option maxRecDepth 10000

namespace Aeon

/-- Two's complement wrap-around of an integer into the int32_t range
[-2^31, 2^31). -/
def wrap32 (x : Int) : Int := (x + 2 ^ 31).emod (2 ^ 32) - 2 ^ 31

/-- The C expression `v >> AEON_SCALE_BITS` on an int32 value: arithmetic
right shift by 8, i.e. floor division by 256. -/
def sar8 (x : Int) : Int := Int.fdiv x 256

/-- libAeon.c, `aeon_random` (lines 20-23): the LCG step
`*state = (*state * 1103515245 + 12345) & 0x7fffffff`.  The uint32_t
multiply-add wraps modulo 2^32 and the mask keeps the low 31 bits; because
2^31 divides 2^32 this composite is exactly reduction modulo 2^31. -/
def aeon_random (state : Nat) : Nat := (state * 1103515245 + 12345) % 2 ^ 31

/-- libAeon.c, `aeon_tanh_approx` (lines 30-50), fixed-point branch:
saturate strictly above 256 and strictly below -256, otherwise return
`x - ((x*x >> 8) * x >> 8) / 3`.  For `|x| ≤ 256` none of the int32
intermediates can overflow, so no wrap is needed. -/
def aeon_tanh_approx (x : Int) : Int :=
  if x > 256 then 256
  else if x < -256 then -256
  else
    let x2 := sar8 (x * x)
    let x3 := sar8 (x2 * x)
    x - Int.tdiv x3 3

/-- In the non-saturating branch, `x2 = (x*x) >> 8` lies in [0, 256] when
`|x| ≤ 256`. -/
lemma sar8_sq_bounds {x : Int} (h1 : -256 ≤ x) (h2 : x ≤ 256) :
    0 ≤ sar8 (x * x) ∧ sar8 (x * x) ≤ 256 := by
  have hb : (0:Int) ≤ 256 := by norm_num
  have hnn : 0 ≤ x * x := mul_self_nonneg x
  constructor
  · exact Int.fdiv_nonneg hnn hb
  · have hsq : x * x ≤ 256 * 256 := by nlinarith
    have := Int.ediv_le_ediv (c := 256) (by norm_num) hsq
    rw [sar8, Int.fdiv_eq_ediv _ hb]
    calc x * x / 256 ≤ 256 * 256 / 256 := this
      _ = 256 := by norm_num

/-- Saturating fixed-point tanh stays inside the Q8.8 unit interval:
`-256 ≤ aeon_tanh_approx x ≤ 256` for every integer input. -/
lemma tanh_abs_le (x : Int) :
    -256 ≤ aeon_tanh_approx x ∧ aeon_tanh_approx x ≤ 256 := by
  unfold aeon_tanh_approx
  by_cases hgt : x > 256
  · simp [hgt]
  by_cases hlt : x < -256
  · simp [hgt, hlt]
  simp only [hgt, hlt, if_false]
  have h1 : -256 ≤ x := by omega
  have h2 : x ≤ 256 := by omega
  have hb : (0:Int) ≤ 256 := by norm_num
  obtain ⟨hx2a, hx2b⟩ := sar8_sq_bounds h1 h2
  set x2 := sar8 (x * x) with hx2
  rcases le_or_lt 0 x with hx | hx
  · -- 0 ≤ x ≤ 256 : 0 ≤ x3 ≤ x, 0 ≤ x3/3 ≤ x3, result in [x - x3, x] ⊆ [0, 256]
    have hx3a : 0 ≤ sar8 (x2 * x) := Int.fdiv_nonneg (mul_nonneg hx2a hx) hb
    have hx3b : sar8 (x2 * x) ≤ x := by
      have hmul : x2 * x ≤ 256 * x := mul_le_mul_of_nonneg_right hx2b hx
      have := Int.ediv_le_ediv (c := 256) (by norm_num) hmul
      rw [sar8, Int.fdiv_eq_ediv _ hb]
      calc x2 * x / 256 ≤ 256 * x / 256 := this
        _ = x := Int.mul_ediv_cancel_left x (by norm_num)
    set x3 := sar8 (x2 * x) with hx3
    have hta : 0 ≤ Int.tdiv x3 3 := Int.tdiv_nonneg hx3a (by norm_num)
    have htb : Int.tdiv x3 3 ≤ x3 := by
      rw [Int.tdiv_eq_ediv hx3a (by norm_num)]
      exact Int.ediv_le_self 3 hx3a
    constructor <;> omega
  · -- -256 ≤ x < 0 : x ≤ x3 ≤ 0, x3 ≤ x3/3 ≤ 0, result in [x, 0]
    have hxneg : x ≤ 0 := le_of_lt hx
    have hx3a : sar8 (x2 * x) ≤ 0 := by
      have hmul : x2 * x ≤ 0 := mul_nonpos_of_nonneg_of_nonpos hx2a hxneg
      have := Int.ediv_le_ediv (c := 256) (by norm_num) hmul
      rw [sar8, Int.fdiv_eq_ediv _ hb]
      simpa using this
    have hx3b : x ≤ sar8 (x2 * x) := by
      have hmul : 256 * x ≤ x2 * x := by nlinarith
      have := Int.ediv_le_ediv (c := 256) (by norm_num) hmul
      rw [sar8, Int.fdiv_eq_ediv _ hb]
      calc x = 256 * x / 256 := (Int.mul_ediv_cancel_left x (by norm_num)).symm
        _ ≤ x2 * x / 256 := this
    set x3 := sar8 (x2 * x) with hx3
    have hta : Int.tdiv x3 3 ≤ 0 := by
      have : 0 ≤ Int.tdiv (-x3) 3 := Int.tdiv_nonneg (by omega) (by norm_num)
      rw [Int.neg_tdiv] at this
      omega
    have htb : x3 ≤ Int.tdiv x3 3 := by
      have h1 : Int.tdiv (-x3) 3 ≤ -x3 := by
        rw [Int.tdiv_eq_ediv (by omega) (by norm_num)]
        exact Int.ediv_le_self 3 (by omega)
      rw [Int.neg_tdiv] at h1
      omega
    constructor <;> omega

/-- Successive LCG draws: `lcgDraws n s` is the list of the next `n` values
produced by repeatedly applying `aeon_random` starting from state `s`,
paired with the final generator state. -/
def lcgDraws : Nat → Nat → List Nat × Nat
  | 0, s => ([], s)
  | n + 1, s =>
      let r := aeon_random s
      let p := lcgDraws n r
      (r :: p.1, p.2)

/-- libAeon.c, `generate_hash` (lines 55-62): seed the LCG with
`seed ^ (uint32_t)timestamp` and emit the low byte of each of 16 successive
iterates. -/
def generate_hash (seed timestamp : Nat) : Fin 16 → Nat :=
  fun i => (lcgDraws 16 (seed ^^^ (timestamp % 2 ^ 32))).1.getD i 0 % 256

/-- State of the sparse-population loop of `aeon_birth` (libAeon.c lines
106-140): current RNG state, the indices and weights accepted so far (in
acceptance order, so `idxs.length` is the C `sparse_count`), and the number
of candidate indices drawn so far. -/
structure SparseState where
  rng : Nat
  idxs : List Nat
  ws : List Int
  draws : Nat

/-- One iteration of the sparse-population loop: draw a candidate index
`r % 1024` (N² = 1024 total connections), reject it if it already occurs
(linear scan), otherwise draw a weight `(r2 % 256) - 128` and append both. -/
def sparseStep (s : SparseState) : SparseState :=
  let r := aeon_random s.rng
  let idx := r % 1024
  if idx ∈ s.idxs then
    { s with rng := r, draws := s.draws + 1 }
  else
    let r2 := aeon_random r
    { rng := r2, idxs := s.idxs ++ [idx],
      ws := s.ws ++ [((r2 % 256 : Nat) : Int) - 128], draws := s.draws + 1 }

/-- The sparse-population loop
`for (i = 0; i < target && sparse_count < 256; i++)` with
`target = N²/S = 256`: the fuel counts the remaining values of `i`, and the
`idxs.length < 256` test is the second loop condition on `sparse_count`. -/
def sparseLoop : Nat → SparseState → SparseState
  | 0, s => s
  | fuel + 1, s =>
      if s.idxs.length < 256 then sparseLoop fuel (sparseStep s) else s

/-- The `aeon_core_t` aggregate (libAeon.h lines 84-105) with the
certificate fields inlined in declaration order.  Array fields are total
functions from their index range; `sparse_indices` entries are Nat because
the C type is uint16_t (the in-range invariant is proved, not assumed). -/
@[ext]
structure AeonCore where
  birth_time : Nat
  birth_hash : Fin 16 → Nat
  reservoir_seed : Nat
  reservoir_size : Nat
  version : Nat
  state : Fin 32 → Int
  W_in : Fin 32 → Int
  W_reservoir : Fin 256 → Int
  W_out : Fin 32 → Int
  sparse_indices : Fin 256 → Nat
  sparse_count : Nat
  samples_processed : Nat
  learning_sessions : Nat
  is_trained : Bool

/-- The final state of the sparse-population loop run by `aeon_birth` for a
given effective seed: the input RNG state is the one left behind by the 32
W_in draws. -/
def birthSparse (effSeed : Nat) : SparseState :=
  sparseLoop 256 ⟨(lcgDraws 32 effSeed).2, [], [], 0⟩

/-- libAeon.c, `aeon_birth` (lines 68-152) for a non-null core.  `now` is
the value read from `time(NULL)` (an environmental input of the function).
The parameter is the caller's uint32_t seed value, truncated once on entry;
if it is zero the (uint32_t-cast) birth time is used instead.  W_in draws
map each raw value to `(raw % 256) - 128`; the sparse loop then continues
with the same generator. -/
def aeon_birth (seed now : Nat) : AeonCore :=
  let s0 := seed % 2 ^ 32
  let effSeed := if s0 = 0 then now % 2 ^ 32 else s0
  let win := lcgDraws 32 effSeed
  let sp := birthSparse effSeed
  { birth_time := now
  , birth_hash := generate_hash effSeed now
  , reservoir_seed := effSeed
  , reservoir_size := 32
  , version := 256
  , state := fun _ => 0
  , W_in := fun i => ((win.1.getD i 0 % 256 : Nat) : Int) - 128
  , W_reservoir := fun k => sp.ws.getD k 0
  , W_out := fun _ => 0
  , sparse_indices := fun k => sp.idxs.getD k 0
  , sparse_count := sp.idxs.length
  , samples_processed := 0
  , learning_sessions := 0
  , is_trained := false }

/-- libAeon.c, `aeon_update` (lines 192-232) for non-null arguments, with
AEON_INPUT_SIZE = 1.  The input contribution is
`(W_in[i] * input[0]) >> 8`; the recurrent pass adds
`(W_reservoir[k] * state[idx % 32]) >> 8` into row `idx / 32` for each
stored sparse entry in order; then the activation is applied elementwise
and `samples_processed` is incremented (uint32_t wrap).  The two
dependent-if guards skip accesses that are out of bounds in C (undefined
behaviour there; every birth-produced core satisfies both bounds). -/
def aeon_update (c : AeonCore) (input : Fin 1 → Int) : AeonCore :=
  let pre0 : Fin 32 → Int := fun i => sar8 (wrap32 (c.W_in i * input 0))
  let pre1 : Fin 32 → Int :=
    (List.range c.sparse_count).foldl (fun acc k =>
      if h : k < 256 then
        let idx := c.sparse_indices ⟨k, h⟩
        if h2 : idx / 32 < 32 then
          let j : Fin 32 := ⟨idx % 32, Nat.mod_lt _ (by norm_num)⟩
          Function.update acc ⟨idx / 32, h2⟩
            (wrap32 (acc ⟨idx / 32, h2⟩ +
              sar8 (wrap32 (c.W_reservoir ⟨k, h⟩ * c.state j))))
        else acc
      else acc) pre0
  { c with
    state := fun i => aeon_tanh_approx (pre1 i)
    samples_processed := (c.samples_processed + 1) % 2 ^ 32 }

/-- libAeon.c, `aeon_predict` (lines 234-252) for non-null arguments, with
AEON_OUTPUT_SIZE = 1: the single output is the wrapped int32 accumulation
of `(W_out[j] * state[j]) >> 8` over j = 0..31.  The core is read-only. -/
def aeon_predict (c : AeonCore) : Fin 1 → Int :=
  fun _ =>
    (List.finRange 32).foldl
      (fun sum j => wrap32 (sum + sar8 (wrap32 (c.W_out j * c.state j)))) 0

/-- libAeon.c, `aeon_reset` (lines 254-258) for a non-null core: zero the
state, touch nothing else. -/
def aeon_reset (c : AeonCore) : AeonCore :=
  { c with state := fun _ => 0 }

/-- The C cast `(int)q` of a rational: truncation toward zero. -/
def truncQ (q : ℚ) : Int := Int.tdiv q.num (q.den : Int)

/-- libAeon.c, `aeon_prune` (lines 456-484) for a non-null core, fixed-point
branch.  The caller's float `threshold` (embedded as the rational it
denotes) is first converted by `(aeon_weight_t)(threshold * AEON_SCALE)`:
the float multiply by 256 is exact and the integer cast truncates toward
zero.  Every readout weight with `abs(w) < fixed_threshold` is zeroed and
counted; the count is returned. -/
def aeon_prune (c : AeonCore) (threshold : ℚ) : Int × AeonCore :=
  let fixedThreshold := truncQ (threshold * 256)
  let prunedCount :=
    (List.finRange 32).countP fun i => decide (|c.W_out i| < fixedThreshold)
  ((prunedCount : Int),
    { c with W_out := fun i =>
        if |c.W_out i| < fixedThreshold then 0 else c.W_out i })

/-- libAeon.c, `aeon_train` (lines 264-270): the argument guards.  Null
pointers are embedded as `Option` arguments.  The guards run before any
mutation; the post-guard body (ridge regression carried out in C `float`
arithmetic, lines 272-453) is IEEE floating point and is taken as an
arbitrary function `body` — no claim here depends on it.  The C sentinels
-1.0f (null argument) and -2.0f (too few samples) are exactly representable
and embedded as the rationals -1 and -2; on success the body's float MSE is
abstracted as a rational. -/
def aeon_train
    (body : AeonCore → (Nat → Fin 1 → Int) → (Nat → Fin 1 → Int) →
            Nat → Nat → ℚ × AeonCore)
    (core : Option AeonCore) (inputs targets : Option (Nat → Fin 1 → Int))
    (n_samples washout : Nat) : ℚ × Option AeonCore :=
  match core, inputs, targets with
  | some c, some ins, some tgt =>
      if n_samples ≤ washout then (-2, some c)
      else
        let r := body c ins tgt n_samples washout
        (r.1, some r.2)
  | _, _, _ => (-1, core)

/-- The null-argument sentinel of `aeon_train` (libAeon.c line 268,
`return -1.0f`). -/
def trainNullSentinel : ℚ := -1

/-- libAeon.c, `aeon_save` (lines 158-186): `fwrite(core, sizeof *core, 1)`
writes the whole aggregate as one contiguous image.  The image is embedded
as the concatenation of all fields in declaration order (libAeon.h lines
84-105), scalars widened to Int and the bool as one 0/1 entry; `fopen`
succeeding is part of the claim's file model, so the return code is the 0
of the `written == 1` branch. -/
def encodeCore (c : AeonCore) : List Int :=
  (c.birth_time : Int) ::
    ((List.ofFn fun i : Fin 16 => (c.birth_hash i : Int)) ++
    ((c.reservoir_seed : Int) :: (c.reservoir_size : Int) :: (c.version : Int) ::
    ((List.ofFn fun i : Fin 32 => c.state i) ++
    ((List.ofFn fun i : Fin 32 => c.W_in i) ++
    ((List.ofFn fun i : Fin 256 => c.W_reservoir i) ++
    ((List.ofFn fun i : Fin 32 => c.W_out i) ++
    ((List.ofFn fun i : Fin 256 => (c.sparse_indices i : Int)) ++
    [(c.sparse_count : Int), (c.samples_processed : Int),
     (c.learning_sessions : Int), if c.is_trained then 1 else 0])))))))

/-- `aeon_save` for non-null arguments on a writable path: return code 0
and the byte image written. -/
def aeon_save (c : AeonCore) : Int × List Int := (0, encodeCore c)

/-- Field-by-field parse of a core image, inverse of `encodeCore`: each
`drop` skips one field of the declaration-order layout. -/
def decodeCore (l : List Int) : AeonCore :=
  let a1 := l.drop 1          -- birth_hash ...
  let a2 := a1.drop 16        -- seed, size, version ...
  let a3 := a2.drop 3         -- state ...
  let a4 := a3.drop 32        -- W_in ...
  let a5 := a4.drop 32        -- W_reservoir ...
  let a6 := a5.drop 256       -- W_out ...
  let a7 := a6.drop 32        -- sparse_indices ...
  let a8 := a7.drop 256       -- sparse_count, counters, flag
  { birth_time := (l.getD 0 0).toNat
  , birth_hash := fun i => (a1.getD i 0).toNat
  , reservoir_seed := (a2.getD 0 0).toNat
  , reservoir_size := (a2.getD 1 0).toNat
  , version := (a2.getD 2 0).toNat
  , state := fun i => a3.getD i 0
  , W_in := fun i => a4.getD i 0
  , W_reservoir := fun i => a5.getD i 0
  , W_out := fun i => a6.getD i 0
  , sparse_indices := fun i => (a7.getD i 0).toNat
  , sparse_count := (a8.getD 0 0).toNat
  , samples_processed := (a8.getD 1 0).toNat
  , learning_sessions := (a8.getD 2 0).toNat
  , is_trained := a8.getD 3 0 != 0 }

/-- libAeon.c, `aeon_load` (lines 173-186) for non-null arguments, with the
file modelled as the byte list it holds: `fread(core, sizeof *core, 1)`
succeeds (code 0) exactly when the image has the full size, 632 entries in
this embedding; a short read returns -3 and leaves the partially
overwritten core unspecified (here: the same total parse). -/
def aeon_load (l : List Int) : Int × AeonCore :=
  if l.length = 632 then (0, decodeCore l) else (-3, decodeCore l)

/-- A deterministic driver for round-trip claims: feed each input through
`aeon_update` and record the `aeon_predict` output after each step. -/
def runSeq (c : AeonCore) : List (Fin 1 → Int) → AeonCore × List (Fin 1 → Int)
  | [] => (c, [])
  | x :: xs =>
      let c1 := aeon_update c x
      let out := aeon_predict c1
      let rest := runSeq c1 xs
      (rest.1, out :: rest.2)

/-- `aeon_update` at the C boundary: null core or null input returns at
once, mutating nothing (the function is void, so no error is reported). -/
def aeon_update_c (core : Option AeonCore) (input : Option (Fin 1 → Int)) :
    Option AeonCore :=
  match core, input with
  | some c, some inp => some (aeon_update c inp)
  | _, _ => core

/-- `aeon_predict` at the C boundary: the second component is the content of
the caller's output buffer after the call; with a null core or null buffer
nothing is written, and the (void) function reports nothing. -/
def aeon_predict_c (core : Option AeonCore) (out : Option (Fin 1 → Int)) :
    Option AeonCore × Option (Fin 1 → Int) :=
  match core, out with
  | some c, some _ => (core, some (aeon_predict c))
  | _, _ => (core, out)

/-- `aeon_reset` at the C boundary: a null core returns at once. -/
def aeon_reset_c (core : Option AeonCore) : Option AeonCore :=
  match core with
  | some c => some (aeon_reset c)
  | none => none

/- ============================================================
   Theorems for the claims
   ============================================================ -/

/-- Claim C2, counterexample: the claim says the fixed-point
`aeon_tanh_approx` clamps to sign(x)·256 whenever `|x| ≥ 256`, in
particular that `aeon_tanh_approx 256 = 256`.  The code clamps only for
`|x| > 256` (strict), so at the boundary it runs the polynomial branch and
returns 256 - 256/3 = 171. -/
theorem tanh_claim_counterexample :
    |(256 : Int)| ≥ 256 ∧ aeon_tanh_approx 256 ≠ 256 ∧
    aeon_tanh_approx 256 = 171 := by decide

/-- Claim C2 (amended): in fixed-point mode `aeon_tanh_approx` returns
sign(x)·256 whenever `|x| > 256` (strictly), and for `|x| ≤ 256` — the
boundary ±256 included — returns `x - x³/3` with each multiply
right-shifted by 8 (so in particular it returns 171 at 256 and -171 at
-256, not ±256). -/
theorem tanh_amended (x : Int) :
    (256 < x → aeon_tanh_approx x = 256) ∧
    (x < -256 → aeon_tanh_approx x = -256) ∧
    (-256 ≤ x → x ≤ 256 →
      aeon_tanh_approx x = x - Int.tdiv (sar8 (sar8 (x * x) * x)) 3) ∧
    aeon_tanh_approx 256 = 171 ∧ aeon_tanh_approx (-256) = -171 := by
  refine ⟨fun h => ?_, fun h => ?_, fun h1 h2 => ?_, by decide, by decide⟩
  · simp [aeon_tanh_approx, h]
  · have hg : ¬ x > 256 := by omega
    simp [aeon_tanh_approx, hg, h]
  · have hg : ¬ x > 256 := by omega
    have hl : ¬ x < -256 := by omega
    simp [aeon_tanh_approx, hg, hl]

/-- Witness for `tanh_amended` at the concrete inputs 300, -300 and 128. -/
theorem tanh_amended_witness :
    aeon_tanh_approx 300 = 256 ∧ aeon_tanh_approx (-300) = -256 ∧
    aeon_tanh_approx 128 = 128 - Int.tdiv (sar8 (sar8 (128 * 128) * 128)) 3 :=
  ⟨(tanh_amended 300).1 (by norm_num),
   (tanh_amended (-300)).2.1 (by norm_num),
   (tanh_amended 128).2.2.1 (by norm_num) (by norm_num)⟩

/-- Claim C3: for every core and every input vector, after `aeon_update`
every state element satisfies `|state[i]| ≤ 256` in Q8.8 raw units (i.e.
`|state[i]| ≤ 1.0`), regardless of the magnitudes of the inputs or of the
accumulated pre-activation sums, because every element is written through
the saturating activation. -/
theorem update_state_bounded (c : AeonCore) (input : Fin 1 → Int) (i : Fin 32) :
    -256 ≤ (aeon_update c input).state i ∧ (aeon_update c input).state i ≤ 256 := by
  simp only [aeon_update]
  exact tanh_abs_le _

/-- Claim C1, counterexample: the claim says two cores born from the same
nonzero seed have bit-identical birth_hash, but `generate_hash` mixes the
wall-clock birth time into its LCG state (`seed ^ (uint32_t)timestamp`), so
two births from seed 1 at times 0 and 1 already differ in hash byte 0
(166 versus 57). -/
theorem birth_hash_counterexample :
    (1 : Nat) % 2 ^ 32 ≠ 0 ∧
    (aeon_birth 1 0).birth_hash 0 ≠ (aeon_birth 1 1).birth_hash 0 := by decide

/-- Claim C1 (amended): for every nonzero uint32 seed, two cores produced
by `aeon_birth` with that seed have bit-identical W_in, W_reservoir,
sparse_indices and sparse_count whatever their birth times, and both have
all-zero state and all-zero readout; their birth_hash values are
bit-identical provided the two births record the same birth_time (the hash
also depends on the clock). -/
theorem birth_deterministic (seed t1 t2 : Nat) (hs : seed % 2 ^ 32 ≠ 0) :
    (aeon_birth seed t1).W_in = (aeon_birth seed t2).W_in ∧
    (aeon_birth seed t1).W_reservoir = (aeon_birth seed t2).W_reservoir ∧
    (aeon_birth seed t1).sparse_indices = (aeon_birth seed t2).sparse_indices ∧
    (aeon_birth seed t1).sparse_count = (aeon_birth seed t2).sparse_count ∧
    (t1 = t2 → (aeon_birth seed t1).birth_hash = (aeon_birth seed t2).birth_hash) ∧
    (∀ i, (aeon_birth seed t1).state i = 0) ∧
    (∀ i, (aeon_birth seed t1).W_out i = 0) := by
  have hs' : seed % 4294967296 ≠ 0 := by
    intro h
    exact hs (by norm_num [h])
  refine ⟨?_, ?_, ?_, ?_, fun h => by rw [h], fun i => ?_, fun i => ?_⟩ <;>
    simp [aeon_birth, hs']

/-- Witness for `birth_deterministic` at seed 1 and birth times 5 and 7. -/
theorem birth_deterministic_witness :
    (aeon_birth 1 5).W_in = (aeon_birth 1 7).W_in ∧
    (aeon_birth 1 5).W_reservoir = (aeon_birth 1 7).W_reservoir ∧
    (aeon_birth 1 5).sparse_indices = (aeon_birth 1 7).sparse_indices ∧
    (aeon_birth 1 5).sparse_count = (aeon_birth 1 7).sparse_count ∧
    (5 = 7 → (aeon_birth 1 5).birth_hash = (aeon_birth 1 7).birth_hash) ∧
    (∀ i, (aeon_birth 1 5).state i = 0) ∧
    (∀ i, (aeon_birth 1 5).W_out i = 0) :=
  birth_deterministic 1 5 7 (by decide)

/-- A concrete core used by the closed witnesses and counterexamples:
readout slot 0 holds the Q8.8 raw weight 10, everything else is zero. -/
def sampleCore : AeonCore :=
  { birth_time := 0
  , birth_hash := fun _ => 0
  , reservoir_seed := 1
  , reservoir_size := 32
  , version := 256
  , state := fun _ => 0
  , W_in := fun _ => 0
  , W_reservoir := fun _ => 0
  , W_out := fun i => if i = 0 then 10 else 0
  , sparse_indices := fun _ => 0
  , sparse_count := 0
  , samples_processed := 0
  , learning_sessions := 0
  , is_trained := false }

/-- Claim C4: whenever `n_samples ≤ washout`, `aeon_train` returns the
negative sentinel -2.0f — distinct from the null-argument sentinel
-1.0f — and hands back the core totally unmutated (state, W_out,
samples_processed, learning_sessions and is_trained included), whatever
the (unmodelled, floating-point) training body would have computed. -/
theorem train_guard_no_mutation
    (body : AeonCore → (Nat → Fin 1 → Int) → (Nat → Fin 1 → Int) →
            Nat → Nat → ℚ × AeonCore)
    (c : AeonCore) (ins tgt : Nat → Fin 1 → Int)
    (n_samples washout : Nat) (h : n_samples ≤ washout) :
    aeon_train body (some c) (some ins) (some tgt) n_samples washout
      = (-2, some c) ∧
    (-2 : ℚ) < 0 ∧ (-2 : ℚ) ≠ trainNullSentinel := by
  refine ⟨?_, by norm_num, by norm_num [trainNullSentinel]⟩
  simp [aeon_train, h]

/-- Witness for `train_guard_no_mutation`: 5 samples with washout 50. -/
theorem train_guard_no_mutation_witness :
    aeon_train (fun c _ _ _ _ => (0, c)) (some sampleCore)
        (some fun _ _ => 0) (some fun _ _ => 0) 5 50 = (-2, some sampleCore) ∧
    (-2 : ℚ) < 0 ∧ (-2 : ℚ) ≠ trainNullSentinel :=
  train_guard_no_mutation _ sampleCore _ _ 5 50 (by norm_num)

/-- Claim C9: `aeon_update` mutates only the state array and
`samples_processed` (incremented by one with uint32 wrap) and leaves the
certificate, W_in, W_reservoir, W_out, the sparse data and the remaining
counters unchanged; `aeon_predict` hands the core cell back unchanged, so
an immediately repeated predict with no intervening update or train
returns the identical output. -/
theorem update_frame_predict_pure (c : AeonCore) (input : Fin 1 → Int)
    (buf : Option (Fin 1 → Int)) :
    (aeon_update c input).birth_time = c.birth_time ∧
    (aeon_update c input).birth_hash = c.birth_hash ∧
    (aeon_update c input).reservoir_seed = c.reservoir_seed ∧
    (aeon_update c input).reservoir_size = c.reservoir_size ∧
    (aeon_update c input).version = c.version ∧
    (aeon_update c input).W_in = c.W_in ∧
    (aeon_update c input).W_reservoir = c.W_reservoir ∧
    (aeon_update c input).W_out = c.W_out ∧
    (aeon_update c input).sparse_indices = c.sparse_indices ∧
    (aeon_update c input).sparse_count = c.sparse_count ∧
    (aeon_update c input).learning_sessions = c.learning_sessions ∧
    (aeon_update c input).is_trained = c.is_trained ∧
    (aeon_update c input).samples_processed
      = (c.samples_processed + 1) % 2 ^ 32 ∧
    (aeon_predict_c (some c) buf).1 = some c ∧
    (aeon_predict_c (aeon_predict_c (some c) (some (fun _ => 0))).1
        (aeon_predict_c (some c) (some (fun _ => 0))).2).2
      = (aeon_predict_c (some c) (some (fun _ => 0))).2 := by
  refine ⟨rfl, rfl, rfl, rfl, rfl, rfl, rfl, rfl, rfl, rfl, rfl, rfl, rfl,
    ?_, ?_⟩
  · cases buf <;> rfl
  · simp [aeon_predict_c]

/-- Claim C10: with a null core pointer or a null input/output pointer,
`aeon_update`, `aeon_predict` and `aeon_reset` return immediately as
no-ops: the core cell and the output buffer are unchanged, and — the
functions being void — no error indication reaches the caller. -/
theorem null_args_noop (core : Option AeonCore)
    (input outbuf : Option (Fin 1 → Int))
    (hu : core = none ∨ input = none) (hp : core = none ∨ outbuf = none) :
    aeon_update_c core input = core ∧
    aeon_predict_c core outbuf = (core, outbuf) ∧
    aeon_reset_c none = none := by
  refine ⟨?_, ?_, rfl⟩
  · rcases hu with h | h
    · subst h; cases input <;> rfl
    · subst h; cases core <;> rfl
  · rcases hp with h | h
    · subst h; cases outbuf <;> rfl
    · subst h; cases core <;> rfl

/-- Witness for `null_args_noop`: null input and null output buffer on a
non-null core. -/
theorem null_args_noop_witness :
    aeon_update_c (some sampleCore) none = some sampleCore ∧
    aeon_predict_c (some sampleCore) none = (some sampleCore, none) ∧
    aeon_reset_c none = none :=
  null_args_noop (some sampleCore) none none (Or.inr rfl) (Or.inr rfl)

/-- Claim C5, counterexample: the claim reads the threshold in the same
units as the stored readout (Q8.8 raw units in fixed-point), under which a
weight with |w| ≥ τ must stay unchanged.  The code instead multiplies the
float threshold by AEON_SCALE = 256 before comparing: pruning `sampleCore`
(raw readout weight 10 at slot 0) with τ = 1/8 zeroes that weight even
though 10 ≥ 1/8, because the comparison bound is trunc(1/8 · 256) = 32
raw. -/
theorem prune_units_counterexample :
    (1 / 8 : ℚ) ≤ |((sampleCore.W_out 0 : Int) : ℚ)| ∧
    sampleCore.W_out 0 = 10 ∧
    (aeon_prune sampleCore (1 / 8)).2.W_out 0 = 0 := by
  refine ⟨by norm_num [sampleCore], rfl, ?_⟩
  norm_num [aeon_prune, truncQ, sampleCore]

/-- Claim C5 (amended): `aeon_prune` reads its threshold in natural units
and converts it to raw Q8.8 by truncating τ·256 toward zero; it sets
exactly those readout weights with |w| < trunc(τ·256) to zero, leaves
every weight with |w| ≥ trunc(τ·256) unchanged, leaves W_in and the sparse
recurrent weights and indices untouched, and returns the count of weights
below the converted bound. -/
theorem prune_correct (c : AeonCore) (τ : ℚ) (i : Fin 32) :
    (|c.W_out i| < truncQ (τ * 256) → (aeon_prune c τ).2.W_out i = 0) ∧
    (truncQ (τ * 256) ≤ |c.W_out i| →
      (aeon_prune c τ).2.W_out i = c.W_out i) ∧
    (aeon_prune c τ).2.W_in = c.W_in ∧
    (aeon_prune c τ).2.W_reservoir = c.W_reservoir ∧
    (aeon_prune c τ).2.sparse_indices = c.sparse_indices ∧
    (aeon_prune c τ).2.sparse_count = c.sparse_count ∧
    (aeon_prune c τ).1 =
      ((Finset.univ.filter
          fun j : Fin 32 => |c.W_out j| < truncQ (τ * 256)).card : Int) := by
  refine ⟨fun h => ?_, fun h => ?_, rfl, rfl, rfl, rfl, ?_⟩
  · simp [aeon_prune, h]
  · simp [aeon_prune, not_lt.mpr h]
  · simp only [aeon_prune]
    congr 1
    rw [Fin.univ_def]
    simp [Finset.filter, Finset.card, List.countP_eq_length_filter]

/-- Witness for `prune_correct` on `sampleCore`: τ = 1/8 zeroes the raw
weight 10 (bound 32), τ = 1/100 keeps it (bound 2). -/
theorem prune_correct_witness :
    (aeon_prune sampleCore (1 / 8)).2.W_out 0 = 0 ∧
    (aeon_prune sampleCore (1 / 100)).2.W_out 0 = sampleCore.W_out 0 :=
  ⟨(prune_correct sampleCore (1 / 8) 0).1 (by norm_num [truncQ, sampleCore]),
   (prune_correct sampleCore (1 / 100) 0).2.1
     (by norm_num [truncQ, sampleCore]; decide)⟩

/-- Dropping a whole leading field of the image reaches the next field. -/
lemma ofFn_append_drop {n : Nat} (f : Fin n → Int) (rest : List Int) :
    (List.ofFn f ++ rest).drop n = rest := by
  have h := List.drop_left (List.ofFn f) rest
  rwa [List.length_ofFn] at h

/-- Reading inside the leading field of the image hits that field. -/
lemma ofFn_append_getD {n : Nat} (f : Fin n → Int) (rest : List Int)
    (i : Fin n) : (List.ofFn f ++ rest).getD i 0 = f i := by
  simp [List.getD_eq_getElem?_getD, List.getElem?_append, List.length_ofFn,
    i.isLt, List.getElem?_ofFn, List.ofFnNthVal]

lemma drop_one_cons (a : Int) (l : List Int) : (a :: l).drop 1 = l := rfl

lemma drop_three_cons (a b d : Int) (l : List Int) :
    (a :: b :: d :: l).drop 3 = l := rfl

lemma getD_cons_one (a b : Int) (l : List Int) : (a :: b :: l).getD 1 0 = b :=
  rfl

lemma getD_cons_two (a b d : Int) (l : List Int) :
    (a :: b :: d :: l).getD 2 0 = d := rfl

lemma getD_cons_three (a b d e : Int) (l : List Int) :
    (a :: b :: d :: e :: l).getD 3 0 = e := rfl

/-- Parsing the saved image restores the core exactly. -/
lemma decode_encode (c : AeonCore) : decodeCore (encodeCore c) = c := by
  have hb : ((if c.is_trained then (1:Int) else 0) != 0) = c.is_trained := by
    cases c.is_trained <;> rfl
  unfold decodeCore encodeCore
  ext <;> simp only [drop_one_cons, drop_three_cons, ofFn_append_drop,
    ofFn_append_getD, List.getD_cons_zero, getD_cons_one, getD_cons_two,
    getD_cons_three, Int.toNat_natCast, hb]

/-- Claim C6: `aeon_save` followed by `aeon_load` into a fresh core —
with the file modelled as the byte image that save wrote — returns 0 twice
and yields a core equal to the original, so any subsequent identical
sequence of update and predict calls on the two cores produces
bit-identical states and outputs. -/
theorem save_load_roundtrip (c : AeonCore) (inputs : List (Fin 1 → Int)) :
    (aeon_save c).1 = 0 ∧
    (aeon_load (aeon_save c).2).1 = 0 ∧
    (aeon_load (aeon_save c).2).2 = c ∧
    runSeq (aeon_load (aeon_save c).2).2 inputs = runSeq c inputs := by
  have hlen : (encodeCore c).length = 632 := by
    simp only [encodeCore, List.length_cons, List.length_append,
      List.length_ofFn]
    norm_num
  have hrt : decodeCore (encodeCore c) = c := decode_encode c
  refine ⟨rfl, ?_, ?_, ?_⟩ <;> simp [aeon_save, aeon_load, hlen, hrt]

/- ============================================================
   1-bit weight exchange codec (src/phase6-collective/src/quantization.c)
   ============================================================ -/

/-- One bit of the 1-bit quantizer: iteration `k` of the C loop in
`quantize_1bit` ORs bit `k % 8` into byte `k / 8` exactly when
`weights[k] >= 0` (bytes were zeroed first), so the bit is 1 iff index `k`
exists and holds a nonnegative weight.  Weights are the rationals denoted
by the C floats; `>= 0` on floats is the sign test embedded here. -/
def quantBit (weights : List ℚ) (k : Nat) : Nat :=
  if k < weights.length ∧ 0 ≤ weights.getD k 0 then 1 else 0

/-- Output byte `j` of `quantize_1bit`: the C loop touches each bit of the
byte at most once, so regrouping its iterations per byte gives the byte as
the LSB-first sum of its eight bits. -/
def quantByte (weights : List ℚ) (j : Nat) : Nat :=
  quantBit weights (8 * j) + 2 * quantBit weights (8 * j + 1) +
  4 * quantBit weights (8 * j + 2) + 8 * quantBit weights (8 * j + 3) +
  16 * quantBit weights (8 * j + 4) + 32 * quantBit weights (8 * j + 5) +
  64 * quantBit weights (8 * j + 6) + 128 * quantBit weights (8 * j + 7)

/-- quantization.c, `quantize_1bit` (lines 4-21) for non-null pointers:
return 0 and write nothing when `count <= 0`; otherwise zero
`(count + 7) / 8` output bytes, set bit `i % 8` of byte `i / 8` for every
`weights[i] >= 0`, and return the byte count. -/
def quantize_1bit (weights : List ℚ) : Nat × List Nat :=
  if weights.length = 0 then (0, [])
  else ((weights.length + 7) / 8,
    List.ofFn fun j : Fin ((weights.length + 7) / 8) => quantByte weights j)

/-- quantization.c, `dequantize_1bit` (lines 23-38) for non-null pointers:
entry `k` becomes `+scale` when bit `k % 8` of byte `k / 8` of the input is
set, else `-scale`. -/
def dequantize_1bit (input : List Nat) (count : Nat) (scale : ℚ) : List ℚ :=
  List.ofFn fun k : Fin count =>
    if (input.getD ((k : Nat) / 8) 0).testBit ((k : Nat) % 8) then scale
    else -scale

lemma quantBit_le_one (W : List ℚ) (k : Nat) : quantBit W k ≤ 1 := by
  unfold quantBit; split <;> omega

/-- Bit `b` of output byte `j` is the quantizer bit of weight `8j + b`. -/
lemma testBit_quantByte (W : List ℚ) (j b : Nat) (hb : b < 8) :
    ((quantByte W j).testBit b = true) ↔ quantBit W (8 * j + b) = 1 := by
  have h0 := quantBit_le_one W (8 * j)
  have h1 := quantBit_le_one W (8 * j + 1)
  have h2 := quantBit_le_one W (8 * j + 2)
  have h3 := quantBit_le_one W (8 * j + 3)
  have h4 := quantBit_le_one W (8 * j + 4)
  have h5 := quantBit_le_one W (8 * j + 5)
  have h6 := quantBit_le_one W (8 * j + 6)
  have h7 := quantBit_le_one W (8 * j + 7)
  unfold quantByte
  rw [Nat.testBit_to_div_mod]
  interval_cases b <;> simp <;> omega

/-- Reading an `ofFn` list inside its range. -/
lemma getD_ofFn {α : Type} {n : Nat} (f : Fin n → α) (d : α) (i : Nat)
    (h : i < n) : (List.ofFn f).getD i d = f ⟨i, h⟩ := by
  simp [List.getD_eq_getElem?_getD, List.getElem?_ofFn, List.ofFnNthVal, h]

/-- The packed bit at index `k` of the quantizer output is set iff
`W[k] ≥ 0`. -/
lemma quantize_testBit (W : List ℚ) (k : Nat) (hk : k < W.length) :
    (((quantize_1bit W).2.getD (k / 8) 0).testBit (k % 8) = true) ↔
      0 ≤ W.getD k 0 := by
  have hne : ¬ W.length = 0 := by omega
  have hdiv : k / 8 < (W.length + 7) / 8 := by omega
  unfold quantize_1bit
  rw [if_neg hne]
  simp only
  rw [getD_ofFn _ 0 _ hdiv]
  rw [testBit_quantByte _ _ _ (Nat.mod_lt _ (by norm_num))]
  have hk8 : 8 * (k / 8) + k % 8 = k := by omega
  rw [hk8]
  constructor
  · intro h1
    by_contra hneg
    have hz : quantBit W k = 0 := by
      unfold quantBit
      rw [if_neg]
      tauto
    omega
  · intro h0
    unfold quantBit
    rw [if_pos ⟨hk, h0⟩]

/-- Claim C7: for a nonempty weight vector W, `quantize_1bit` returns
`(|W| + 7) / 8 = ⌈|W|/8⌉` and writes exactly that many bytes, in which bit
`k % 8` of byte `k / 8` is 1 iff `W[k] ≥ 0` (LSB-first on index); and for
every magnitude M > 0, `dequantize_1bit` applied to that output yields a
vector whose every entry is +M or -M and whose sign matches `W[k]` at every
index where `|W[k]| > 0`. -/
theorem quantize_dequantize_roundtrip (W : List ℚ) (M : ℚ)
    (hn : 0 < W.length) (hM : 0 < M) :
    (quantize_1bit W).1 = (W.length + 7) / 8 ∧
    (quantize_1bit W).2.length = (W.length + 7) / 8 ∧
    (∀ k, k < W.length →
      ((((quantize_1bit W).2.getD (k / 8) 0).testBit (k % 8) = true) ↔
        0 ≤ W.getD k 0)) ∧
    (∀ k, k < W.length →
      ((dequantize_1bit (quantize_1bit W).2 W.length M).getD k 0 = M ∨
        (dequantize_1bit (quantize_1bit W).2 W.length M).getD k 0 = -M) ∧
      (0 < W.getD k 0 →
        (dequantize_1bit (quantize_1bit W).2 W.length M).getD k 0 = M) ∧
      (W.getD k 0 < 0 →
        (dequantize_1bit (quantize_1bit W).2 W.length M).getD k 0 = -M)) := by
  have hne : ¬ W.length = 0 := by omega
  refine ⟨by rw [quantize_1bit, if_neg hne], ?_, fun k hk => quantize_testBit W k hk, ?_⟩
  · rw [quantize_1bit, if_neg hne]
    simp [List.length_ofFn]
  · intro k hk
    have hd : (dequantize_1bit (quantize_1bit W).2 W.length M).getD k 0 =
        if (((quantize_1bit W).2.getD (k / 8) 0).testBit (k % 8)) then M
        else -M := by
      unfold dequantize_1bit
      rw [getD_ofFn _ 0 _ hk]
    rw [hd]
    by_cases hbit : (((quantize_1bit W).2.getD (k / 8) 0).testBit (k % 8)) = true
    · rw [if_pos hbit]
      have hge := (quantize_testBit W k hk).mp hbit
      refine ⟨Or.inl rfl, fun _ => rfl, fun hlt => absurd hge (by linarith)⟩
    · rw [if_neg hbit]
      have hge : ¬ 0 ≤ W.getD k 0 := fun h =>
        hbit ((quantize_testBit W k hk).mpr h)
      refine ⟨Or.inr rfl, fun hpos => absurd (le_of_lt hpos) hge, fun _ => rfl⟩

/-- Witness for `quantize_dequantize_roundtrip` on W = [3/10, -7/10],
M = 32: the packed byte is 0x01 and decoding restores signs +32, -32. -/
theorem quantize_dequantize_roundtrip_witness :
    (quantize_1bit [(3 : ℚ)/10, -(7 : ℚ)/10]).1 = 1 ∧
    ((dequantize_1bit (quantize_1bit [(3 : ℚ)/10, -(7 : ℚ)/10]).2 2 32).getD 0 0 = 32 ∧
      (dequantize_1bit (quantize_1bit [(3 : ℚ)/10, -(7 : ℚ)/10]).2 2 32).getD 1 0 = -32) := by
  have h := quantize_dequantize_roundtrip [(3 : ℚ)/10, -(7 : ℚ)/10] 32
    (by norm_num) (by norm_num)
  exact ⟨h.1, (h.2.2.2 0 (by norm_num)).2.1 (by norm_num),
    (h.2.2.2 1 (by norm_num)).2.2 (by norm_num)⟩

/-- One iteration of the sparse-population loop preserves the invariants
and draws exactly one candidate. -/
lemma sparseStep_props (s : SparseState) (hnd : s.idxs.Nodup)
    (hlt : ∀ x ∈ s.idxs, x < 1024) (hld : s.idxs.length ≤ s.draws) :
    (sparseStep s).idxs.Nodup ∧
    (∀ x ∈ (sparseStep s).idxs, x < 1024) ∧
    (sparseStep s).idxs.length ≤ (sparseStep s).draws ∧
    (sparseStep s).draws = s.draws + 1 := by
  simp only [sparseStep]
  by_cases hmem : aeon_random s.rng % 1024 ∈ s.idxs
  · rw [if_pos hmem]
    refine ⟨hnd, hlt, ?_, rfl⟩
    show s.idxs.length ≤ s.draws + 1
    omega
  · rw [if_neg hmem]
    refine ⟨?_, ?_, ?_, rfl⟩
    · rw [List.nodup_append]
      exact ⟨hnd, List.nodup_singleton _, by simpa using hmem⟩
    · intro x hx
      rcases List.mem_append.mp hx with h | h
      · exact hlt x h
      · have hx1 : x = aeon_random s.rng % 1024 := by simpa using h
        rw [hx1]
        exact Nat.mod_lt _ (by norm_num)
    · simp only [List.length_append, List.length_singleton]
      omega

/-- Invariants of the sparse-population loop: distinct in-range indices,
population bounded by draws, and — while the draw budget cannot overrun
the capacity check — exactly one candidate draw per unit of fuel. -/
lemma sparseLoop_props :
    ∀ (fuel : Nat) (s : SparseState), s.idxs.Nodup →
    (∀ x ∈ s.idxs, x < 1024) → s.idxs.length ≤ s.draws →
    s.draws + fuel ≤ 256 →
    (sparseLoop fuel s).idxs.Nodup ∧
    (∀ x ∈ (sparseLoop fuel s).idxs, x < 1024) ∧
    (sparseLoop fuel s).idxs.length ≤ (sparseLoop fuel s).draws ∧
    (sparseLoop fuel s).draws = s.draws + fuel
  | 0, s, hnd, hlt, hld, hbudget => by
      rw [sparseLoop]
      exact ⟨hnd, hlt, hld, by omega⟩
  | fuel + 1, s, hnd, hlt, hld, hbudget => by
      have hguard : s.idxs.length < 256 := by omega
      rw [sparseLoop, if_pos hguard]
      obtain ⟨h1, h2, h3, h4⟩ := sparseStep_props s hnd hlt hld
      have hrec := sparseLoop_props fuel (sparseStep s) h1 h2 h3 (by omega)
      exact ⟨hrec.1, hrec.2.1, hrec.2.2.1, by omega⟩

/-- Claim C8: after `aeon_birth`, `sparse_count ≤ ⌊N²/S⌋ = 256` (and it is
a Nat, so 0 ≤ holds), the stored values `sparse_indices[0..sparse_count)`
are pairwise distinct and each lies in `[0, N² = 1024)`; and the
population loop makes exactly 256 candidate draws for every seed — it
stops after the draw budget even when duplicate rejection under-fills,
silently recording the actual population. -/
theorem birth_sparse_invariants (seed now : Nat) :
    (aeon_birth seed now).sparse_count ≤ 256 ∧
    (∀ i j : Fin 256, (i : Nat) < (aeon_birth seed now).sparse_count →
      (j : Nat) < (aeon_birth seed now).sparse_count → i ≠ j →
      (aeon_birth seed now).sparse_indices i ≠
        (aeon_birth seed now).sparse_indices j) ∧
    (∀ i : Fin 256, (i : Nat) < (aeon_birth seed now).sparse_count →
      (aeon_birth seed now).sparse_indices i < 1024) ∧
    (∀ e, (birthSparse e).draws = 256) := by
  have key : ∀ e, (birthSparse e).idxs.Nodup ∧
      (∀ x ∈ (birthSparse e).idxs, x < 1024) ∧
      (birthSparse e).idxs.length ≤ 256 ∧
      (birthSparse e).draws = 256 := by
    intro e
    have h := sparseLoop_props 256 ⟨(lcgDraws 32 e).2, [], [], 0⟩
      List.nodup_nil (by simp) (by simp) (by simp)
    have h0 : (⟨(lcgDraws 32 e).2, [], [], 0⟩ : SparseState).draws = 0 := rfl
    have hbs : birthSparse e =
        sparseLoop 256 ⟨(lcgDraws 32 e).2, [], [], 0⟩ := rfl
    rw [hbs]
    exact ⟨h.1, h.2.1, by omega, by omega⟩
  simp only [aeon_birth]
  obtain ⟨knd, krange, klen, _⟩ :=
    key (if seed % 2 ^ 32 = 0 then now % 2 ^ 32 else seed % 2 ^ 32)
  set L := (birthSparse (if seed % 2 ^ 32 = 0 then now % 2 ^ 32
    else seed % 2 ^ 32)).idxs with hL
  refine ⟨by omega, ?_, ?_, fun e => ((key e).2.2.2)⟩
  · intro i j hi hj hij
    rw [List.getD_eq_getElem L 0 hi, List.getD_eq_getElem L 0 hj]
    intro heq
    exact hij (Fin.ext ((List.Nodup.getElem_inj_iff knd).mp heq))
  · intro i hi
    rw [List.getD_eq_getElem L 0 hi]
    exact krange _ (List.getElem_mem hi)

/-- Witness for `birth_sparse_invariants` at seed 1, birth time 0: slots 0
and 1 hold distinct indices, slot 0 is in range, and the loop drew 256
candidates. -/
theorem birth_sparse_invariants_witness :
    (aeon_birth 1 0).sparse_indices 0 ≠ (aeon_birth 1 0).sparse_indices 1 ∧
    (aeon_birth 1 0).sparse_indices 0 < 1024 ∧
    (birthSparse 1).draws = 256 :=
  ⟨(birth_sparse_invariants 1 0).2.1 0 1 (by decide) (by decide) (by decide),
   (birth_sparse_invariants 1 0).2.2.1 0 (by decide),
   (birth_sparse_invariants 1 0).2.2.2 1⟩

end Aeon
